import Mathlib

/-!
Verification of the `rust-epoll-example` reactor and actor fabric.

The Rust sources are shallowly embedded: file descriptors are `Int`
(`RawFd = i32`), flag bitsets are `Nat` (the epoll bits are nonnegative),
the kernel's epoll interest table and the reactor's receiver registry are
association lists, fallible syscalls return `Except Unit`.  Receiver objects
(`Rc<RefCell<dyn EventReceiver>>`) are opaque tags (`Nat`).  The kernel side
of `epoll_ctl` is modelled with its state-dependent failure modes: `ADD`
fails when the fd is already registered (EEXIST), `MOD` and `DEL` fail when
it is not (ENOENT).  Strings are modelled as `List Char` (one char per byte
for the ASCII inputs the parser deals with).
-/

namespace EpollExample

/-- Relevant`libc` epoll constants (values from the Linux ABI). -/
def EPOLLIN : Nat := 1
def EPOLLOUT : Nat := 4
def EPOLLHUP : Nat := 16
def EPOLLONESHOT : Nat := 1073741824

/-- `reactor.rs`: `READ_FLAGS = EPOLLONESHOT | EPOLLIN`. -/
def READ_FLAGS : Nat := EPOLLONESHOT ||| EPOLLIN

/-- `reactor.rs`: `WRITE_FLAGS = EPOLLONESHOT | EPOLLOUT`. -/
def WRITE_FLAGS : Nat := EPOLLONESHOT ||| EPOLLOUT

/-- Linux `EWOULDBLOCK` (= `EAGAIN`) as an integer, used verbatim by
`request_context.rs` in the comparison `res != libc::EWOULDBLOCK as _`. -/
def EWOULDBLOCK : Int := 11

/-! ### Association lists (the embedding of `HashMap<RawFd, _>` and of the
kernel's per-epoll interest table) -/

/-- Key lookup in an association list. -/
def lookupKey {α : Type} (m : List (Int × α)) (k : Int) : Option α :=
  match m with
  | [] => none
  | (k2, v) :: rest => if k2 = k then some v else lookupKey rest k

/-- Key membership in an association list. -/
def containsKey {α : Type} (m : List (Int × α)) (k : Int) : Bool :=
  match m with
  | [] => false
  | (k2, _) :: rest => k2 = k || containsKey rest k

/-- Overwrite the value stored under a key (used when the key is present). -/
def setKey {α : Type} : List (Int × α) → Int → α → List (Int × α)
  | [], _, _ => []
  | (k2, v2) :: rest, k, v =>
      if k2 = k then (k, v) :: setKey rest k v else (k2, v2) :: setKey rest k v

/-- `HashMap::insert`: replace the value if the key is present, else add the
entry. -/
def setOrInsert {α : Type} (m : List (Int × α)) (k : Int) (v : α) : List (Int × α) :=
  if containsKey m k then setKey m k v else (k, v) :: m

/-- `HashMap::remove`: drop the entry for a key. -/
def eraseKey {α : Type} : List (Int × α) → Int → List (Int × α)
  | [], _ => []
  | (k2, v2) :: rest, k => if k2 = k then eraseKey rest k else (k2, v2) :: eraseKey rest k

/-! ### The kernel epoll model -/

/-- Kernel state of one epoll instance: the registered (fd, event-mask)
interest table. -/
abbrev EpollTable : Type := List (Int × Nat)

/-- `epoll_ctl(EPOLL_CTL_ADD)`: fails with EEXIST when the fd is already
registered. -/
def epollCtlAdd (ep : EpollTable) (fd : Int) (flags : Nat) : Except Unit EpollTable :=
  if containsKey ep fd then .error () else .ok ((fd, flags) :: ep)

/-- `epoll_ctl(EPOLL_CTL_MOD)`: fails with ENOENT when the fd is not
registered. -/
def epollCtlMod (ep : EpollTable) (fd : Int) (flags : Nat) : Except Unit EpollTable :=
  if containsKey ep fd then .ok (setKey ep fd flags) else .error ()

/-- `epoll_ctl(EPOLL_CTL_DEL)`: fails with ENOENT when the fd is not
registered. -/
def epollCtlDel (ep : EpollTable) (fd : Int) : Except Unit EpollTable :=
  if containsKey ep fd then .ok (eraseKey ep fd) else .error ()

/-! ### `reactor.rs`: interest actions and the reactor -/

/-- `InterestAction` from `reactor.rs`; the receiver argument of `Add` is an
opaque tag standing for `Rc<RefCell<dyn EventReceiver>>`. -/
inductive InterestAction : Type where
  | Add : Int → Nat → Nat → InterestAction
  | Modify : Int → Nat → InterestAction
  | Remove : Int → InterestAction
  | Exit : InterestAction
  | PrintStats : InterestAction
deriving DecidableEq, Repr

/-- The reactor's own state: the epoll table it owns, the fd → receiver
registry, and (for reasoning about fd lifetime) the list of fds it has
closed. -/
structure Reactor : Type where
  epoll : EpollTable
  receivers : List (Int × Nat)
  closed : List Int
deriving DecidableEq, Repr

/-- `Reactor::add_interest`: `epoll_ctl(ADD)` first (`?` on failure), then
`receivers.insert`.  The returned state reflects the mutations performed
before the function returned, so the error case returns the state
untouched exactly because the source performs no mutation before the
syscall. -/
def Reactor.add_interest (st : Reactor) (fd : Int) (flags : Nat) (receiver : Nat) :
    Reactor × Except Unit Unit :=
  match epollCtlAdd st.epoll fd flags with
  | .error u => (st, .error u)
  | .ok ep => ({ st with epoll := ep, receivers := setOrInsert st.receivers fd receiver }, .ok ())

/-- `Reactor::modify_interest`: just `epoll_ctl(MOD)`. -/
def Reactor.modify_interest (st : Reactor) (fd : Int) (flags : Nat) :
    Reactor × Except Unit Unit :=
  match epollCtlMod st.epoll fd flags with
  | .error u => (st, .error u)
  | .ok ep => ({ st with epoll := ep }, .ok ())

/-- `Reactor::remove_interest`: `epoll_ctl(DEL)` first (`?` on failure), then
`receivers.remove`, then `libc::close(fd)` (recorded in `closed`). -/
def Reactor.remove_interest (st : Reactor) (fd : Int) : Reactor × Except Unit Unit :=
  match epollCtlDel st.epoll fd with
  | .error u => (st, .error u)
  | .ok ep =>
      ({ st with epoll := ep, receivers := eraseKey st.receivers fd,
                 closed := fd :: st.closed }, .ok ())

/-- One iteration of the `for action in actions` loop body of
`Reactor::apply`: returns the mutated reactor, the updated `exit` flag and
the propagated syscall result. -/
def applyStep (st : Reactor) (exit : Bool) : InterestAction → (Reactor × Bool) × Except Unit Unit
  | .Add fd flags receiver =>
      let (s, r) := st.add_interest fd flags receiver
      ((s, exit), r)
  | .Modify fd flags =>
      let (s, r) := st.modify_interest fd flags
      ((s, exit), r)
  | .Remove fd =>
      let (s, r) := st.remove_interest fd
      ((s, exit), r)
  | .Exit => ((st, true), .ok ())
  | .PrintStats => ((st, exit), .ok ())

/-- The `for` loop of `Reactor::apply`, front of the `VecDeque` first; a `?`
failure aborts the loop, keeping the mutations already made. -/
def applyGo (st : Reactor) (exit : Bool) : List InterestAction → Reactor × Except Unit Bool
  | [] => (st, .ok exit)
  | a :: rest =>
      match applyStep st exit a with
      | ((s, e), .ok _) => applyGo s e rest
      | ((s, _), .error u) => (s, .error u)

/-- `Reactor::apply`: drains the whole pending-actions list starting with
`exit = false` and returns the final flag. -/
def Reactor.apply (st : Reactor) (actions : List InterestAction) : Reactor × Except Unit Bool :=
  applyGo st false actions

/-- What the dispatch `match` in `Reactor::run` decides to do with one ready
event. -/
inductive DispatchChoice : Type where
  | callOnRead : DispatchChoice
  | callOnWrite : DispatchChoice
  | removeFd : DispatchChoice
  | logUnexpected : DispatchChoice
deriving DecidableEq, Repr

/-- The event-dispatch `match` of `Reactor::run` (reactor.rs lines 151-180),
arm for arm, in source order: `EPOLLIN` set → `on_read`; else `EPOLLOUT`
set → `on_write`; else the third arm repeats the `EPOLLOUT` guard before
calling `remove_interest` (kept verbatim); else log `unexpected events`. -/
def dispatchEvent (v : Nat) : DispatchChoice :=
  if v &&& EPOLLIN = EPOLLIN then .callOnRead
  else if v &&& EPOLLOUT = EPOLLOUT then .callOnWrite
  else if v &&& EPOLLOUT = EPOLLOUT then .removeFd
  else .logUnexpected

/-- The `loop` of `Reactor::run`, abstracted over the per-wakeup pending
action lists that dispatch produced: apply each batch in turn; an apply
error propagates out of `run`, an `Exit`-flagged batch makes `run` break
with `Ok(())` (`.ok true`); `.ok false` means the loop is still running
after the given batches. -/
def runOnBatches (st : Reactor) : List (List InterestAction) → Reactor × Except Unit Bool
  | [] => (st, .ok false)
  | b :: bs =>
      match Reactor.apply st b with
      | (s, .error u) => (s, .error u)
      | (s, .ok true) => (s, .ok true)
      | (s, .ok false) => runOnBatches s bs

/-- Whether an interest action mentions the given fd (used to state the
last-`Modify`-wins law for batches whose other actions leave the fd alone). -/
def targetsFd (fd : Int) : InterestAction → Bool
  | .Add fd2 _ _ => fd2 = fd
  | .Modify fd2 _ => fd2 = fd
  | .Remove fd2 => fd2 = fd
  | .Exit => false
  | .PrintStats => false

/-- Overwrite the registered event mask of one fd in the reactor's epoll
table (the effect of a successful `epoll_ctl(MOD)`). -/
def setEpollFlags (st : Reactor) (fd : Int) (flags : Nat) : Reactor :=
  { st with epoll := setKey st.epoll fd flags }

/-! ### `request_context.rs`: the per-client request-context actor -/

/-- `request_context::Message::ContentLengthResponse { receiver, content_length }`. -/
inductive RCMessage : Type where
  | ContentLengthResponse : Int → Nat → RCMessage
deriving DecidableEq, Repr

/-- `content_actor::Message::ContentLengthRequest { req, sender }`; the
request text is the char-level image of the bytes read from the socket. -/
structure ContentMessage : Type where
  req : List Char
  sender : Int
deriving DecidableEq, Repr

/-- The shared half of `content_actor::Handle`: the message FIFO plus the
counting-semaphore eventfd's counter. -/
structure ContentHandleState : Type where
  queue : List ContentMessage
  sem : Nat
deriving DecidableEq, Repr

/-- The shared half of `request_context::Handle`. -/
structure ReqHandleState : Type where
  queue : List RCMessage
  sem : Nat
deriving DecidableEq, Repr

/-- `content_actor::Handle::enqueue`: push to the FIFO, then
`eventfd_write(efd, 1)` bumps the semaphore. -/
def contentEnqueue (h : ContentHandleState) (m : ContentMessage) : ContentHandleState :=
  { queue := h.queue ++ [m], sem := h.sem + 1 }

/-- `request_context::Handle::enqueue`. -/
def reqEnqueue (h : ReqHandleState) (m : RCMessage) : ReqHandleState :=
  { queue := h.queue ++ [m], sem := h.sem + 1 }

/-- The fields of `request_context::RequestContext` (minus the pure logging
flag): per-fd accumulated buffers, per-fd known content lengths, the
actor's own mailbox FIFO and eventfd number, and the handle to the
content-length actor. -/
structure RequestContextState : Type where
  buf : List (Int × List Nat)
  contentLength : List (Int × Nat)
  ctrQueue : List RCMessage
  efd : Int
  contentHandle : ContentHandleState
deriving DecidableEq, Repr

/-- `self.buf.entry(fd).or_insert_with(Vec::new-ish).extend_from_slice(bytes)`. -/
def bufExtend (m : List (Int × List Nat)) (fd : Int) (bytes : List Nat) :
    List (Int × List Nat) :=
  match lookupKey m fd with
  | some old => setKey m fd (old ++ bytes)
  | none => (fd, bytes) :: m

/-- `RequestContext::check_length`: reads `self.buf` only; appends exactly one
`Modify` when the fd has a buffer (write-flags when `buf.len() >= length`),
nothing when the fd is unknown (log only). -/
def RequestContext.check_length (st : RequestContextState) (fd : Int) (length : Nat)
    (acts : List InterestAction) : List InterestAction :=
  match lookupKey st.buf fd with
  | some b => if b.length ≥ length then acts ++ [.Modify fd WRITE_FLAGS]
              else acts ++ [.Modify fd READ_FLAGS]
  | none => acts

/-- `RequestContext::handle_message`: record the announced content length,
then re-evaluate that connection with `check_length`. -/
def RequestContext.handle_message (st : RequestContextState) (m : RCMessage)
    (acts : List InterestAction) : RequestContextState × List InterestAction :=
  match m with
  | .ContentLengthResponse receiver len =>
      let st2 := { st with contentLength := setOrInsert st.contentLength receiver len }
      (st2, RequestContext.check_length st2 receiver len acts)

/-- The `for msg in self.ctr_queue.borrow_mut().drain(..)` loop: handle the
messages front-first, threading the state and the pending-actions list. -/
def RequestContext.drainQueue (st : RequestContextState) (acts : List InterestAction) :
    List RCMessage → RequestContextState × List InterestAction
  | [] => (st, acts)
  | m :: rest =>
      let (st2, acts2) := RequestContext.handle_message st m acts
      RequestContext.drainQueue st2 acts2 rest

/-- `RequestContext::on_read`.  `efdSem` is the mailbox eventfd's semaphore
counter (a nonblocking `eventfd_read` of a zero counter fails with EAGAIN,
and the `?` propagates it); `readRes` is the return value of `libc::read`
on the client socket (`-1` on any failure) and `readData` the bytes the
kernel produced.  Returns the new actor state, the new semaphore counter
and the appended pending-actions list.  The error comparison in the TCP
branch is the source's own `res != libc::EWOULDBLOCK as _`, which compares
the *return value* with the errno constant 11. -/
def RequestContext.on_read (st : RequestContextState) (fd : Int) (efdSem : Nat)
    (readRes : Int) (readData : List Nat) (acts : List InterestAction) :
    Except Unit (RequestContextState × Nat × List InterestAction) :=
  if fd = st.efd then
    if efdSem = 0 then .error ()
    else
      let (st2, acts2) := RequestContext.drainQueue { st with ctrQueue := [] } acts st.ctrQueue
      .ok (st2, efdSem - 1, acts2 ++ [.Modify fd READ_FLAGS])
  else
    let sz := readRes.toNat
    let bytes := readData.take sz
    let step1 : Except Unit RequestContextState :=
      if 0 ≤ readRes then .ok { st with buf := bufExtend st.buf fd bytes }
      else if readRes ≠ EWOULDBLOCK then .error ()
      else .ok st
    match step1 with
    | .error u => .error u
    | .ok st2 =>
        match lookupKey st2.contentLength fd with
        | none =>
            let data := bytes.map fun b => Char.ofNat b
            .ok ({ st2 with contentHandle := contentEnqueue st2.contentHandle ⟨data, fd⟩ },
                 efdSem, acts)
        | some length =>
            .ok (st2, efdSem, RequestContext.check_length st2 fd length acts)

/-- `RequestContext::on_write`: `libc::write` of the fixed response only
logs on either outcome (`_writeRes`), then `syscall!(shutdown(fd,
SHUT_RDWR))?` propagates a shutdown failure, then `Remove(fd)` is pushed.
No buffer or content-length entry is touched. -/
def RequestContext.on_write (st : RequestContextState) (fd : Int) (_writeRes : Int)
    (shutdownRes : Except Unit Unit) (acts : List InterestAction) :
    Except Unit (RequestContextState × List InterestAction) :=
  match shutdownRes with
  | .error u => .error u
  | .ok _ => .ok (st, acts ++ [.Remove fd])

/-! ### Accept listeners -/

/-- `main.rs` `RequestListener::on_read`: `self.listener.accept()` is
matched: on success the new stream is made nonblocking (`?` on that
failure), logged and `Add`ed; on failure the error is only logged.  Either
way the listener re-arms itself with a final `Modify` and returns
success. -/
def requestListenerOnRead (listenerFd : Int) (acceptRes : Except Unit Int)
    (nonblockRes : Except Unit Unit) (newReceiver : Nat) (acts : List InterestAction) :
    Except Unit (List InterestAction) :=
  let acts2 : Except Unit (List InterestAction) :=
    match acceptRes with
    | .ok streamFd =>
        match nonblockRes with
        | .error u => .error u
        | .ok _ => .ok (acts ++ [.Add streamFd READ_FLAGS newReceiver])
    | .error _ => .ok acts
  match acts2 with
  | .error u => .error u
  | .ok a => .ok (a ++ [.Modify listenerFd READ_FLAGS])

/-- `request.rs` `Listener::on_ready`: `syscall!(accept(..))?` propagates an
accept failure immediately; on success the socket is made nonblocking
(`?`), `Add`ed under the shared request-context receiver, and the listener
re-arms itself. -/
def listenerOnReady (selfFd : Int) (reqActor : Nat) (acceptRes : Except Unit Int)
    (nonblockRes : Except Unit Unit) (acts : List InterestAction) :
    Except Unit (List InterestAction) :=
  match acceptRes with
  | .error u => .error u
  | .ok accepted =>
      match nonblockRes with
      | .error u => .error u
      | .ok _ => .ok (acts ++ [.Add accepted READ_FLAGS reqActor, .Modify selfFd READ_FLAGS])

/-! ### `content_actor.rs`: the content-length parser and actor -/

/-- `u8::to_ascii_lowercase` on a char-per-byte model. -/
def lowerAscii (c : Char) : Char :=
  if 'A' ≤ c ∧ c ≤ 'Z' then Char.ofNat (c.toNat + 32) else c

/-- `str::eq_ignore_ascii_case`. -/
def eqIgnoreAsciiCase (a b : List Char) : Bool :=
  a.length == b.length && (a.zip b).all fun p => lowerAscii p.1 == lowerAscii p.2

/-- Plain (case-sensitive) prefix test. -/
def prefixEq : List Char → List Char → Bool
  | [], _ => true
  | _ :: _, [] => false
  | a :: as2, b :: bs => a == b && prefixEq as2 bs

/-- `str::contains` for a literal pattern: some position starts with it. -/
def containsSeq (pat : List Char) : List Char → Bool
  | [] => pat.isEmpty
  | c :: rest => prefixEq pat (c :: rest) || containsSeq pat rest

/-- If the last char is a carriage return, drop it (the `\r\n` handling of
`str::lines`). -/
def stripTrailingCR (l : List Char) : List Char :=
  if l.getLast? = some '\r' then l.dropLast else l

/-- `str::lines`: split at `\n`, strip one `\r` before each split point, no
empty trailing line for a trailing terminator, and no `\r`-stripping on an
unterminated final line. -/
def rustLines (s : List Char) : List (List Char) :=
  let step := fun (acc : List (List Char) × List Char) (c : Char) =>
    if c = '\n' then (acc.1 ++ [stripTrailingCR acc.2], ([] : List Char))
    else (acc.1, acc.2 ++ [c])
  let r := s.foldl step ([], [])
  if r.2.isEmpty then r.1 else r.1 ++ [r.2]

/-- The header pattern `content-length: ` (16 chars). -/
def clPat : List Char := "content-length: ".data

/-- The literal `HTTP` gate pattern. -/
def httpPat : List Char := "HTTP".data

/-- The line predicate of `parse_and_set_content_length`:
`l.len() > content_length_sz && l[..content_length_sz].eq_ignore_ascii_case("content-length: ")`. -/
def isCLHeader (l : List Char) : Bool :=
  decide (l.length > clPat.length) && eqIgnoreAsciiCase (l.take clPat.length) clPat

/-- ASCII digit test. -/
def isAsciiDigit (c : Char) : Bool := decide ('0' ≤ c ∧ c ≤ '9')

/-- Decimal accumulation. -/
def digitsToNat (ds : List Char) : Nat := ds.foldl (fun a c => a * 10 + (c.toNat - 48)) 0

/-- One past the largest 64-bit `usize`. -/
def USIZE_LIMIT : Nat := 2 ^ 64

/-- `str::parse::<usize>`: one optional leading `+`, then one or more ASCII
digits, rejecting overflow past `usize::MAX`; anything else is `Err`. -/
def parseUsize (s : List Char) : Except Unit Nat :=
  let ds := match s with
    | '+' :: rest => rest
    | _ => s
  if ds.isEmpty then .error ()
  else if ds.all isAsciiDigit then
    if digitsToNat ds < USIZE_LIMIT then .ok (digitsToNat ds) else .error ()
  else .error ()

/-- `Actor::parse_and_set_content_length` from `content_actor.rs`: `result`
starts at 0; only when the input contains `HTTP` is the first line
satisfying `isCLHeader` looked up, and then its tail past the 16-char
prefix is parsed, `expect` turning a parse failure into a panic
(`.error`). -/
def parse_and_set_content_length (data : List Char) : Except Unit Nat :=
  if containsSeq httpPat data then
    match (rustLines data).find? isCLHeader with
    | some line => parseUsize (line.drop clPat.length)
    | none => .ok 0
  else .ok 0

/-- The content-length actor's fields: its mailbox FIFO and the handle back
to the request-context actor. -/
structure ContentActorState : Type where
  ctrQueue : List ContentMessage
  reqHandle : ReqHandleState
deriving DecidableEq, Repr

/-- `content_actor::Actor::handle_message`: parse (a panic is fatal), then
enqueue the `ContentLengthResponse` on the request-context handle (`?`). -/
def ContentActor.handle_message (st : ContentActorState) (m : ContentMessage) :
    Except Unit ContentActorState :=
  match parse_and_set_content_length m.req with
  | .error u => .error u
  | .ok n =>
      .ok { st with reqHandle := reqEnqueue st.reqHandle (.ContentLengthResponse m.sender n) }

/-- The drain loop of `content_actor::Actor::on_ready`; a failing
`handle_message` aborts it (the lazily-drained queue is emptied either
way). -/
def ContentActor.drainQueue (st : ContentActorState) :
    List ContentMessage → Except Unit ContentActorState
  | [] => .ok st
  | m :: rest =>
      match ContentActor.handle_message st m with
      | .error u => .error u
      | .ok st2 => ContentActor.drainQueue st2 rest

/-- `content_actor::Actor::on_ready`: one `eventfd_read` (EAGAIN when the
semaphore is 0 propagates), drain every queued message in order, then
re-arm the mailbox fd for read. -/
def ContentActor.on_ready (st : ContentActorState) (fd : Int) (efdSem : Nat)
    (acts : List InterestAction) :
    Except Unit (ContentActorState × Nat × List InterestAction) :=
  if efdSem = 0 then .error ()
  else
    match ContentActor.drainQueue { st with ctrQueue := [] } st.ctrQueue with
    | .error u => .error u
    | .ok st2 => .ok (st2, efdSem - 1, acts ++ [.Modify fd READ_FLAGS])

/-! ### Association-list lemmas -/

theorem containsKey_setKey {α : Type} (m : List (Int × α)) (fd k : Int) (f : α) :
    containsKey (setKey m fd f) k = containsKey m k := by
  induction m with
  | nil => rfl
  | cons p rest ih =>
      rcases p with ⟨k2, v⟩
      by_cases hk : k2 = fd
      · subst hk
        simp [setKey, containsKey, ih]
      · simp [setKey, containsKey, hk, ih]

theorem lookupKey_setKey_self {α : Type} (m : List (Int × α)) (k : Int) (v : α)
    (h : containsKey m k = true) : lookupKey (setKey m k v) k = some v := by
  induction m with
  | nil => cases h
  | cons p rest ih =>
      rcases p with ⟨k2, v2⟩
      by_cases hk : k2 = k
      · subst hk
        simp [setKey, lookupKey]
      · simp only [containsKey, Bool.or_eq_true, decide_eq_true_eq] at h
        rcases h with h | h
        · exact absurd h hk
        · simp [setKey, lookupKey, hk, ih h]

theorem lookupKey_setKey_ne {α : Type} (m : List (Int × α)) (fd k : Int) (f : α)
    (h : k ≠ fd) : lookupKey (setKey m fd f) k = lookupKey m k := by
  induction m with
  | nil => rfl
  | cons p rest ih =>
      rcases p with ⟨k2, v2⟩
      by_cases hk : k2 = fd
      · subst hk
        have hg : ¬ k2 = k := fun hc => h hc.symm
        simp [setKey, lookupKey, hg, ih]
      · simp [setKey, lookupKey, hk, ih]

theorem lookupKey_eraseKey_ne {α : Type} (m : List (Int × α)) (g k : Int)
    (h : k ≠ g) : lookupKey (eraseKey m g) k = lookupKey m k := by
  induction m with
  | nil => rfl
  | cons p rest ih =>
      rcases p with ⟨k2, v2⟩
      by_cases hk : k2 = g
      · subst hk
        have hg : ¬ k2 = k := fun hc => h hc.symm
        simp [eraseKey, lookupKey, hg, ih]
      · simp [eraseKey, lookupKey, hk, ih]

theorem setKey_setKey_same {α : Type} (m : List (Int × α)) (k : Int) (a b : α) :
    setKey (setKey m k a) k b = setKey m k b := by
  induction m with
  | nil => rfl
  | cons p rest ih =>
      rcases p with ⟨k2, v2⟩
      by_cases hk : k2 = k
      · subst hk
        simp [setKey, ih]
      · simp [setKey, hk, ih]

theorem setKey_comm_ne {α : Type} (m : List (Int × α)) (fd g : Int) (f h2 : α)
    (h : g ≠ fd) : setKey (setKey m fd f) g h2 = setKey (setKey m g h2) fd f := by
  induction m with
  | nil => rfl
  | cons p rest ih =>
      rcases p with ⟨k2, v2⟩
      by_cases ha : k2 = fd
      · subst ha
        have hg : ¬ k2 = g := fun hc => h hc.symm
        simp [setKey, hg, ih]
      · by_cases hb : k2 = g
        · subst hb
          simp [setKey, ha, h, ih]
        · simp [setKey, ha, hb, ih]

theorem eraseKey_setKey_ne {α : Type} (m : List (Int × α)) (fd g : Int) (f : α)
    (h : g ≠ fd) : eraseKey (setKey m fd f) g = setKey (eraseKey m g) fd f := by
  induction m with
  | nil => rfl
  | cons p rest ih =>
      rcases p with ⟨k2, v2⟩
      by_cases ha : k2 = fd
      · subst ha
        have hg : ¬ k2 = g := fun hc => h hc.symm
        simp [setKey, eraseKey, hg, ih]
      · by_cases hb : k2 = g
        · subst hb
          simp [setKey, eraseKey, ha, ih]
        · simp [setKey, eraseKey, ha, hb, ih]

/-! ### Lemmas about the reactor's `apply` -/

theorem applyStep_exit_true (st : Reactor) (a : InterestAction) :
    (applyStep st true a).1.2 = true := by
  cases a with
  | Add fd flags rc =>
      rcases h : st.add_interest fd flags rc with ⟨s, r⟩
      simp [applyStep, h]
  | Modify fd flags =>
      rcases h : st.modify_interest fd flags with ⟨s, r⟩
      simp [applyStep, h]
  | Remove fd =>
      rcases h : st.remove_interest fd with ⟨s, r⟩
      simp [applyStep, h]
  | Exit => rfl
  | PrintStats => rfl

theorem applyGo_append (xs : List InterestAction) :
    ∀ (st : Reactor) (e : Bool) (ys : List InterestAction),
      applyGo st e (xs ++ ys) =
        match applyGo st e xs with
        | (s, Except.ok b) => applyGo s b ys
        | (s, Except.error u) => (s, Except.error u) := by
  induction xs with
  | nil => intro st e ys; rfl
  | cons a rest ih =>
      intro st e ys
      show applyGo st e (a :: (rest ++ ys)) = _
      simp only [applyGo]
      rcases h : applyStep st e a with ⟨⟨s2, e2⟩, r⟩
      cases r with
      | ok u => exact ih s2 e2 ys
      | error u => rfl

theorem applyGo_keeps_true (l : List InterestAction) :
    ∀ (st s : Reactor) (b : Bool), applyGo st true l = (s, Except.ok b) → b = true := by
  induction l with
  | nil =>
      intro st s b h
      rw [applyGo] at h
      cases h
      rfl
  | cons a rest ih =>
      intro st s b h
      rw [applyGo] at h
      rcases h2 : applyStep st true a with ⟨⟨s2, e2⟩, r⟩
      rw [h2] at h
      cases r with
      | ok u =>
          have he2 : e2 = true := by
            have := applyStep_exit_true st a
            rw [h2] at this
            exact this
          rw [he2] at h
          exact ih s2 s b h
      | error u => cases h

theorem applyGo_exit_mem (l : List InterestAction) :
    ∀ (st s : Reactor) (e b : Bool), applyGo st e l = (s, Except.ok b) →
      InterestAction.Exit ∈ l → b = true := by
  induction l with
  | nil =>
      intro st s e b _ hm
      cases hm
  | cons a rest ih =>
      intro st s e b h hm
      rw [applyGo] at h
      by_cases ha : a = InterestAction.Exit
      · subst ha
        exact applyGo_keeps_true rest st s b h
      · cases hm with
        | head => exact absurd rfl ha
        | tail _ hm2 =>
            rcases h2 : applyStep st e a with ⟨⟨s2, e2⟩, r⟩
            rw [h2] at h
            cases r with
            | ok u => exact ih s2 s e2 b h hm2
            | error u => cases h

/-! ### Frame lemmas: a `Modify`'s flag change commutes with actions on
other fds -/

theorem applyStep_setEpollFlags (st : Reactor) (e : Bool) (fd : Int) (f : Nat)
    (a : InterestAction) (h : targetsFd fd a = false) :
    applyStep (setEpollFlags st fd f) e a =
      ((setEpollFlags (applyStep st e a).1.1 fd f, (applyStep st e a).1.2),
        (applyStep st e a).2) := by
  cases a with
  | Add g flags rc =>
      have hg : ¬ g = fd := by simpa [targetsFd] using h
      by_cases hc : containsKey st.epoll g = true
      · simp [applyStep, Reactor.add_interest, epollCtlAdd, setEpollFlags,
              containsKey_setKey, hc]
      · simp [applyStep, Reactor.add_interest, epollCtlAdd, setEpollFlags,
              containsKey_setKey, hc, setKey, hg]
  | Modify g flags =>
      have hg : ¬ g = fd := by simpa [targetsFd] using h
      by_cases hc : containsKey st.epoll g = true
      · simp [applyStep, Reactor.modify_interest, epollCtlMod, setEpollFlags,
              containsKey_setKey, hc, setKey_comm_ne st.epoll fd g f flags hg]
      · simp [applyStep, Reactor.modify_interest, epollCtlMod, setEpollFlags,
              containsKey_setKey, hc]
  | Remove g =>
      have hg : ¬ g = fd := by simpa [targetsFd] using h
      by_cases hc : containsKey st.epoll g = true
      · simp [applyStep, Reactor.remove_interest, epollCtlDel, setEpollFlags,
              containsKey_setKey, hc, eraseKey_setKey_ne st.epoll fd g f hg]
      · simp [applyStep, Reactor.remove_interest, epollCtlDel, setEpollFlags,
              containsKey_setKey, hc]
  | Exit => rfl
  | PrintStats => rfl

theorem applyGo_setEpollFlags (l : List InterestAction) (fd : Int) (f : Nat)
    (h : ∀ a ∈ l, targetsFd fd a = false) :
    ∀ (st : Reactor) (e : Bool),
      applyGo (setEpollFlags st fd f) e l =
        (setEpollFlags (applyGo st e l).1 fd f, (applyGo st e l).2) := by
  induction l with
  | nil => intro st e; rfl
  | cons a rest ih =>
      intro st e
      have ha := h a (List.mem_cons_self a rest)
      have hr : ∀ x ∈ rest, targetsFd fd x = false :=
        fun x hx => h x (List.mem_cons_of_mem a hx)
      simp only [applyGo]
      rw [applyStep_setEpollFlags st e fd f a ha]
      rcases h2 : applyStep st e a with ⟨⟨s2, e2⟩, r⟩
      cases r with
      | ok u => exact ih hr s2 e2
      | error u => rfl

theorem applyStep_lookup_preserve (st : Reactor) (e : Bool) (fd : Int)
    (a : InterestAction) (h : targetsFd fd a = false) :
    lookupKey (applyStep st e a).1.1.epoll fd = lookupKey st.epoll fd := by
  cases a with
  | Add g flags rc =>
      have hg : ¬ g = fd := by simpa [targetsFd] using h
      by_cases hc : containsKey st.epoll g = true
      · simp [applyStep, Reactor.add_interest, epollCtlAdd, hc]
      · simp [applyStep, Reactor.add_interest, epollCtlAdd, hc, lookupKey, hg]
  | Modify g flags =>
      have hg : ¬ g = fd := by simpa [targetsFd] using h
      by_cases hc : containsKey st.epoll g = true
      · simp [applyStep, Reactor.modify_interest, epollCtlMod, hc,
              lookupKey_setKey_ne st.epoll g fd flags (fun hc2 => hg hc2.symm)]
      · simp [applyStep, Reactor.modify_interest, epollCtlMod, hc]
  | Remove g =>
      have hg : ¬ g = fd := by simpa [targetsFd] using h
      by_cases hc : containsKey st.epoll g = true
      · simp [applyStep, Reactor.remove_interest, epollCtlDel, hc,
              lookupKey_eraseKey_ne st.epoll g fd (fun hc2 => hg hc2.symm)]
      · simp [applyStep, Reactor.remove_interest, epollCtlDel, hc]
  | Exit => rfl
  | PrintStats => rfl

theorem applyGo_lookup_preserve (l : List InterestAction) (fd : Int)
    (h : ∀ a ∈ l, targetsFd fd a = false) :
    ∀ (st : Reactor) (e : Bool),
      lookupKey (applyGo st e l).1.epoll fd = lookupKey st.epoll fd := by
  induction l with
  | nil => intro st e; rfl
  | cons a rest ih =>
      intro st e
      have ha := h a (List.mem_cons_self a rest)
      have hr : ∀ x ∈ rest, targetsFd fd x = false :=
        fun x hx => h x (List.mem_cons_of_mem a hx)
      have hstep := applyStep_lookup_preserve st e fd a ha
      simp only [applyGo]
      rcases h2 : applyStep st e a with ⟨⟨s2, e2⟩, r⟩
      rw [h2] at hstep
      cases r with
      | ok u => rw [ih hr s2 e2]; exact hstep
      | error u => exact hstep

theorem modify_interest_present (st : Reactor) (fd : Int) (flags : Nat)
    (h : containsKey st.epoll fd = true) :
    st.modify_interest fd flags = (setEpollFlags st fd flags, Except.ok ()) := by
  simp [Reactor.modify_interest, epollCtlMod, h, setEpollFlags]

theorem modify_interest_absent (st : Reactor) (fd : Int) (flags : Nat)
    (h : containsKey st.epoll fd = false) :
    st.modify_interest fd flags = (st, Except.error ()) := by
  simp [Reactor.modify_interest, epollCtlMod, h]

/-! ### Lemmas about the actors' mailbox drain loops -/

theorem handle_message_ctrQueue (st : RequestContextState) (m : RCMessage)
    (acts : List InterestAction) :
    (RequestContext.handle_message st m acts).1.ctrQueue = st.ctrQueue := by
  cases m with
  | ContentLengthResponse receiver len => rfl

theorem drainQueue_ctrQueue (msgs : List RCMessage) :
    ∀ (st : RequestContextState) (acts : List InterestAction),
      (RequestContext.drainQueue st acts msgs).1.ctrQueue = st.ctrQueue := by
  induction msgs with
  | nil => intro st acts; rfl
  | cons m rest ih =>
      intro st acts
      rw [RequestContext.drainQueue]
      rcases h : RequestContext.handle_message st m acts with ⟨st2, acts2⟩
      have := handle_message_ctrQueue st m acts
      rw [h] at this
      rw [ih st2 acts2, this]

theorem drainQueue_eq_foldl (msgs : List RCMessage) :
    ∀ (st : RequestContextState) (acts : List InterestAction),
      RequestContext.drainQueue st acts msgs =
        msgs.foldl (fun p m => RequestContext.handle_message p.1 m p.2) (st, acts) := by
  induction msgs with
  | nil => intro st acts; rfl
  | cons m rest ih =>
      intro st acts
      rw [RequestContext.drainQueue, List.foldl_cons]
      rcases h : RequestContext.handle_message st m acts with ⟨st2, acts2⟩
      exact ih st2 acts2

theorem caHandle_ctrQueue (st : ContentActorState) (m : ContentMessage)
    (st2 : ContentActorState) (h : ContentActor.handle_message st m = Except.ok st2) :
    st2.ctrQueue = st.ctrQueue := by
  rw [ContentActor.handle_message] at h
  rcases h2 : parse_and_set_content_length m.req with n | n
  · rw [h2] at h
    cases h
  · rw [h2] at h
    cases h
    rfl

theorem caDrain_ctrQueue (msgs : List ContentMessage) :
    ∀ (st st2 : ContentActorState), ContentActor.drainQueue st msgs = Except.ok st2 →
      st2.ctrQueue = st.ctrQueue := by
  induction msgs with
  | nil =>
      intro st st2 h
      rw [ContentActor.drainQueue] at h
      cases h
      rfl
  | cons m rest ih =>
      intro st st2 h
      rw [ContentActor.drainQueue] at h
      rcases h2 : ContentActor.handle_message st m with u | st3
      · rw [h2] at h
        cases h
      · rw [h2] at h
        rw [ih st3 st2 h, caHandle_ctrQueue st m st3 h2]

theorem find?_first_match {α : Type} (p : α → Bool) (pre : List α) (x : α) (post : List α)
    (hpre : ∀ l ∈ pre, p l = false) (hx : p x = true) :
    List.find? p (pre ++ x :: post) = some x := by
  induction pre with
  | nil => simp [List.find?_cons, hx]
  | cons a rest ih =>
      have ha := hpre a (List.mem_cons_self a rest)
      have hr : ∀ l ∈ rest, p l = false := fun l hl => hpre l (List.mem_cons_of_mem a hl)
      simp [List.find?_cons, ha, ih hr]

/-! ### Claim theorems -/

/-- C1: the spec claims a shutdown-only readiness (neither `EPOLLIN` nor
`EPOLLOUT`) makes the reactor remove the fd within the same batch.  The
source's dispatch `match` repeats the `EPOLLOUT` guard on its
`remove_interest` arm, so that arm is unreachable: a shutdown-only event
such as a bare `EPOLLHUP` falls to the logging arm and no choice of event
mask ever selects the removal arm.  The code never removes on
shutdown-only readiness, contradicting the claim (a code bug: the dead arm
itself shows the removal intent). -/
theorem C1_shutdown_only_event_is_ignored :
    dispatchEvent EPOLLHUP = DispatchChoice.logUnexpected ∧
    ∀ v : Nat, dispatchEvent v = DispatchChoice.callOnRead ∨
      dispatchEvent v = DispatchChoice.callOnWrite ∨
      dispatchEvent v = DispatchChoice.logUnexpected := by
  constructor
  · rfl
  · intro v
    by_cases h1 : v &&& EPOLLIN = EPOLLIN
    · exact Or.inl (by simp [dispatchEvent, h1])
    · by_cases h2 : v &&& EPOLLOUT = EPOLLOUT
      · exact Or.inr (Or.inl (by simp [dispatchEvent, h1, h2]))
      · exact Or.inr (Or.inr (by simp [dispatchEvent, h1, h2]))

/-- C2: the spec claims every accept failure is logged and the accept
listener's readiness callback returns success.  That holds for `main.rs`
`RequestListener::on_read` (second conjunct: on a failed accept it still
re-arms and returns `Ok`), but `request.rs` `Listener::on_ready` applies
`?` to the accept syscall, so an accept failure makes the callback return
the error (first conjunct), which `Reactor::run` then propagates,
terminating the loop — a code bug relative to the documented behaviour. -/
theorem C2_accept_error_propagates_in_listener :
    listenerOnReady 3 1 (Except.error ()) (Except.ok ()) [] = Except.error () ∧
    requestListenerOnRead 3 (Except.error ()) (Except.ok ()) 1 [] =
      Except.ok [InterestAction.Modify 3 READ_FLAGS] :=
  ⟨rfl, rfl⟩

/-- C3: the spec claims a client-socket read failing with
EAGAIN/EWOULDBLOCK is swallowed, the callback returning success with state
unchanged.  The source compares the raw `read` *return value* (always `-1`
on failure) with the errno constant `EWOULDBLOCK` (11), so the guard
`res != libc::EWOULDBLOCK as _` is true for every failing read and the
callback returns the error instead — evaluated here on a client fd (7,
distinct from the mailbox fd 3) whose read returned `-1` with errno
EAGAIN. -/
theorem C3_eagain_read_returns_error :
    RequestContext.on_read ⟨[], [], [], 3, ⟨[], 0⟩⟩ 7 0 (-1) [] [] = Except.error () :=
  rfl

/-- C4: the spec claims that removing a connection fd removes both the
buffer-map entry and the content-length-map entry of the request-context
actor.  The write path `RequestContext::on_write` emits the `Remove(fd)`
action but returns the actor state with both map entries intact — and no
code in `request_context.rs` ever deletes them (the reactor's
`remove_interest` only touches its own registry).  Evaluated at fd 7 with
both entries present. -/
theorem C4_on_write_keeps_map_entries :
    RequestContext.on_write ⟨[((7 : Int), [72, 105])], [((7 : Int), 0)], [], 3, ⟨[], 0⟩⟩
        7 77 (Except.ok ()) [] =
      Except.ok (⟨[((7 : Int), [72, 105])], [((7 : Int), 0)], [], 3, ⟨[], 0⟩⟩,
        [InterestAction.Remove 7]) ∧
    lookupKey ([((7 : Int), [72, 105])] : List (Int × List Nat)) 7 = some [72, 105] ∧
    lookupKey ([((7 : Int), 0)] : List (Int × Nat)) 7 = some 0 :=
  ⟨rfl, rfl, rfl⟩

/-- C5: `Reactor::apply` consumes the pending list in FIFO order (the
prefix of any split is fully applied before the suffix), an `Exit` action
merely sets the exit flag and the drain continues with every remaining
action, a successful `apply` of a batch containing `Exit` reports the
flag `true`, and `run` then breaks out with success right after that
batch. -/
theorem C5_apply_fifo_exit_finishes_drain :
    (∀ (st : Reactor) (e : Bool) (xs ys : List InterestAction),
        applyGo st e (xs ++ ys) =
          match applyGo st e xs with
          | (s, Except.ok b) => applyGo s b ys
          | (s, Except.error u) => (s, Except.error u)) ∧
    (∀ (st : Reactor) (e : Bool) (ys : List InterestAction),
        applyGo st e (InterestAction.Exit :: ys) = applyGo st true ys) ∧
    (∀ (st s : Reactor) (l : List InterestAction) (b : Bool),
        Reactor.apply st l = (s, Except.ok b) → InterestAction.Exit ∈ l → b = true) ∧
    (∀ (st s : Reactor) (bch : List InterestAction) (bs : List (List InterestAction)) (b : Bool),
        Reactor.apply st bch = (s, Except.ok b) → InterestAction.Exit ∈ bch →
          runOnBatches st (bch :: bs) = (s, Except.ok true)) := by
  refine ⟨fun st e xs ys => applyGo_append xs st e ys, fun st e ys => rfl, ?_, ?_⟩
  · intro st s l b h hm
    exact applyGo_exit_mem l st s false b h hm
  · intro st s bch bs b h hm
    have hb : b = true := applyGo_exit_mem bch st s false b h hm
    subst hb
    rw [runOnBatches, h]

/-- Witness for C5: a batch whose `Modify` follows the `Exit` is still
applied (the fd's flags change to the write mask) and `run` returns
success after the batch. -/
theorem C5_apply_fifo_exit_finishes_drain_witness :
    runOnBatches (Reactor.mk [((5 : Int), READ_FLAGS)] [((5 : Int), 1)] [])
        [[InterestAction.Exit, InterestAction.Modify 5 WRITE_FLAGS]] =
      (Reactor.mk [((5 : Int), WRITE_FLAGS)] [((5 : Int), 1)] [], Except.ok true) := by
  have h : Reactor.apply (Reactor.mk [((5 : Int), READ_FLAGS)] [((5 : Int), 1)] [])
      [InterestAction.Exit, InterestAction.Modify 5 WRITE_FLAGS] =
      (Reactor.mk [((5 : Int), WRITE_FLAGS)] [((5 : Int), 1)] [], Except.ok true) := rfl
  exact C5_apply_fifo_exit_finishes_drain.2.2.2 _ _ _ [] true h
    (List.mem_cons_self _ _)

/-- C6 counterexample: the claim as stated matches any line whose 16-char
prefix case-insensitively equals `content-length: `, which includes the
16-char line itself, and demands a fatal parse error for its (empty,
non-numeric) suffix.  On `"HTTP\ncontent-length: "` the source requires
`l.len() > 16` strictly, skips this line and returns `Ok 0` instead of
failing. -/
theorem C6_counterexample_exact_length_line :
    containsSeq httpPat "HTTP\ncontent-length: ".data = true ∧
    (∃ l ∈ rustLines "HTTP\ncontent-length: ".data,
        clPat.length ≤ l.length ∧
        eqIgnoreAsciiCase (l.take clPat.length) clPat = true ∧
        parseUsize (l.drop clPat.length) = Except.error ()) ∧
    parse_and_set_content_length "HTTP\ncontent-length: ".data = Except.ok 0 := by
  refine ⟨rfl, ⟨"content-length: ".data, ?_, ?_, ?_, ?_⟩, rfl⟩
  · decide
  · decide
  · rfl
  · rfl

/-- C6 (amended): the parser returns 0 when the input lacks `HTTP` or no
line is strictly longer than `content-length: ` with its first 16
characters case-insensitively equal to it; otherwise it returns the result
of parsing the remainder of the first such line (so a non-numeric
remainder is the fatal `parseUsize` error). -/
theorem C6_parser_characterization (data : List Char) :
    (containsSeq httpPat data = false → parse_and_set_content_length data = Except.ok 0) ∧
    ((∀ l ∈ rustLines data, isCLHeader l = false) →
        parse_and_set_content_length data = Except.ok 0) ∧
    (∀ pre line post, rustLines data = pre ++ line :: post →
        (∀ l ∈ pre, isCLHeader l = false) → isCLHeader line = true →
        containsSeq httpPat data = true →
        parse_and_set_content_length data = parseUsize (line.drop clPat.length)) := by
  refine ⟨?_, ?_, ?_⟩
  · intro h
    simp [parse_and_set_content_length, h]
  · intro h
    by_cases hc : containsSeq httpPat data = true
    · have hf : (rustLines data).find? isCLHeader = none :=
        List.find?_eq_none.mpr (fun x hx => by simp [h x hx])
      simp [parse_and_set_content_length, hc, hf]
    · simp [parse_and_set_content_length, hc]
  · intro pre line post hsplit hpre hline hhttp
    have hf : (rustLines data).find? isCLHeader = some line := by
      rw [hsplit]
      exact find?_first_match isCLHeader pre line post hpre hline
    simp [parse_and_set_content_length, hhttp, hf]

/-- Witness for C6: a full request whose `content-length: 5` header line is
found and parsed. -/
theorem C6_parser_characterization_witness :
    parse_and_set_content_length
        "GET / HTTP/1.1\r\ncontent-length: 5\r\n\r\nHello".data = Except.ok 5 := by
  have h :=
    (C6_parser_characterization
        "GET / HTTP/1.1\r\ncontent-length: 5\r\n\r\nHello".data).2.2
      ["GET / HTTP/1.1".data] "content-length: 5".data [([] : List Char), "Hello".data]
      (by decide) (by decide) (by decide) (by decide)
  exact h.trans rfl

/-- C7: on a wakeup of the request-context actor's mailbox fd, one
semaphore token is consumed (counter decremented by one), the whole FIFO is
drained and dispatched front-first (the drain equals the left fold of
`handle_message` over the queued messages), the queue is left empty, and
the final appended action re-arms the mailbox fd for read; the
content-length actor's `on_ready` behaves the same way. -/
theorem C7_mailbox_wakeup_drains_all (st : RequestContextState) (efdSem : Nat)
    (readRes : Int) (readData : List Nat) (acts : List InterestAction)
    (h : 0 < efdSem) :
    (RequestContext.on_read st st.efd efdSem readRes readData acts =
      Except.ok
        ((RequestContext.drainQueue { st with ctrQueue := [] } acts st.ctrQueue).1,
          efdSem - 1,
          (RequestContext.drainQueue { st with ctrQueue := [] } acts st.ctrQueue).2 ++
            [InterestAction.Modify st.efd READ_FLAGS])) ∧
    (RequestContext.drainQueue { st with ctrQueue := [] } acts st.ctrQueue).1.ctrQueue = [] ∧
    RequestContext.drainQueue { st with ctrQueue := [] } acts st.ctrQueue =
      st.ctrQueue.foldl (fun p m => RequestContext.handle_message p.1 m p.2)
        ({ st with ctrQueue := [] }, acts) ∧
    (∀ (ca : ContentActorState) (fd2 : Int) (sem2 : Nat) (acts2 : List InterestAction)
        (ca2 : ContentActorState),
        0 < sem2 →
        ContentActor.drainQueue { ca with ctrQueue := [] } ca.ctrQueue = Except.ok ca2 →
          ContentActor.on_ready ca fd2 sem2 acts2 =
              Except.ok (ca2, sem2 - 1, acts2 ++ [InterestAction.Modify fd2 READ_FLAGS]) ∧
            ca2.ctrQueue = []) := by
  refine ⟨?_, drainQueue_ctrQueue st.ctrQueue _ acts,
    drainQueue_eq_foldl st.ctrQueue _ acts, ?_⟩
  · have hz : ¬ efdSem = 0 := Nat.pos_iff_ne_zero.mp h
    rw [RequestContext.on_read, if_pos rfl, if_neg hz]
  · intro ca fd2 sem2 acts2 ca2 hs hdrain
    have hz : ¬ sem2 = 0 := Nat.pos_iff_ne_zero.mp hs
    constructor
    · rw [ContentActor.on_ready, if_neg hz, hdrain]
    · exact caDrain_ctrQueue ca.ctrQueue { ca with ctrQueue := [] } ca2 hdrain

/-- Witness for C7: a mailbox with one queued `ContentLengthResponse(7, 5)`
and a 5-byte buffer for fd 7; the wakeup consumes one of the two semaphore
tokens, records the length, flips fd 7 to write interest and re-arms the
mailbox fd 3. -/
theorem C7_mailbox_wakeup_drains_all_witness :
    RequestContext.on_read
        ⟨[((7 : Int), [1, 2, 3, 4, 5])], [], [RCMessage.ContentLengthResponse 7 5], 3, ⟨[], 0⟩⟩
        3 2 0 [] [] =
      Except.ok
        (⟨[((7 : Int), [1, 2, 3, 4, 5])], [((7 : Int), 5)], [], 3, ⟨[], 0⟩⟩, 1,
          [InterestAction.Modify 7 WRITE_FLAGS, InterestAction.Modify 3 READ_FLAGS]) := by
  exact ((C7_mailbox_wakeup_drains_all
      ⟨[((7 : Int), [1, 2, 3, 4, 5])], [], [RCMessage.ContentLengthResponse 7 5], 3, ⟨[], 0⟩⟩
      2 0 [] [] (by decide)).1).trans rfl

/-- C8: within one batch, an earlier `Modify` on an fd is overwritten by a
later `Modify` on the same fd when the actions between and after them do
not touch that fd: the whole apply result equals the one without the
earlier `Modify`, and (when apply does not fail) the fd ends up registered
with exactly the later mask. -/
theorem C8_last_modify_wins (st : Reactor) (pre mid post : List InterestAction)
    (fd : Int) (f1 f2 : Nat)
    (hmid : ∀ a ∈ mid, targetsFd fd a = false)
    (hpost : ∀ a ∈ post, targetsFd fd a = false)
    (hok : (Reactor.apply st
        (pre ++ InterestAction.Modify fd f1 ::
          (mid ++ InterestAction.Modify fd f2 :: post))).2 ≠ Except.error ()) :
    Reactor.apply st
        (pre ++ InterestAction.Modify fd f1 ::
          (mid ++ InterestAction.Modify fd f2 :: post)) =
      Reactor.apply st (pre ++ (mid ++ InterestAction.Modify fd f2 :: post)) ∧
    lookupKey (Reactor.apply st
        (pre ++ InterestAction.Modify fd f1 ::
          (mid ++ InterestAction.Modify fd f2 :: post))).1.epoll fd = some f2 := by
  have hsplit1 := applyGo_append pre st false
    (InterestAction.Modify fd f1 :: (mid ++ InterestAction.Modify fd f2 :: post))
  have hsplit2 := applyGo_append pre st false
    (mid ++ InterestAction.Modify fd f2 :: post)
  rcases hpre : applyGo st false pre with ⟨s0, r0⟩
  rw [hpre] at hsplit1 hsplit2
  cases r0 with
  | error u =>
      cases u
      have hE : (Reactor.apply st
          (pre ++ InterestAction.Modify fd f1 ::
            (mid ++ InterestAction.Modify fd f2 :: post))).2 = Except.error () := by
        rw [Reactor.apply, hsplit1]
      exact absurd hE hok
  | ok b0 =>
      have h1 : applyGo st false
          (pre ++ InterestAction.Modify fd f1 ::
            (mid ++ InterestAction.Modify fd f2 :: post)) =
          applyGo s0 b0 (InterestAction.Modify fd f1 ::
            (mid ++ InterestAction.Modify fd f2 :: post)) := by
        rw [hsplit1]
      have h2 : applyGo st false (pre ++ (mid ++ InterestAction.Modify fd f2 :: post)) =
          applyGo s0 b0 (mid ++ InterestAction.Modify fd f2 :: post) := by
        rw [hsplit2]
      cases hc0 : containsKey s0.epoll fd with
      | false =>
          have hm := modify_interest_absent s0 fd f1 hc0
          have hstep : applyGo s0 b0 (InterestAction.Modify fd f1 ::
              (mid ++ InterestAction.Modify fd f2 :: post)) = (s0, Except.error ()) := by
            rw [applyGo]
            simp [applyStep, hm]
          have hE : (Reactor.apply st
              (pre ++ InterestAction.Modify fd f1 ::
                (mid ++ InterestAction.Modify fd f2 :: post))).2 = Except.error () := by
            rw [Reactor.apply, h1, hstep]
          exact absurd hE hok
      | true =>
          have hm1 := modify_interest_present s0 fd f1 hc0
          have hstep1 : applyGo s0 b0 (InterestAction.Modify fd f1 ::
              (mid ++ InterestAction.Modify fd f2 :: post)) =
              applyGo (setEpollFlags s0 fd f1) b0
                (mid ++ InterestAction.Modify fd f2 :: post) := by
            rw [applyGo]
            simp [applyStep, hm1]
          have hmidsplit1 := applyGo_append mid (setEpollFlags s0 fd f1) b0
            (InterestAction.Modify fd f2 :: post)
          have hmidsplitR := applyGo_append mid s0 b0
            (InterestAction.Modify fd f2 :: post)
          have hframe := applyGo_setEpollFlags mid fd f1 hmid s0 b0
          rcases hmideval : applyGo s0 b0 mid with ⟨s1, r1⟩
          rw [hmideval] at hmidsplitR hframe
          rw [hframe] at hmidsplit1
          cases r1 with
          | error u =>
              cases u
              have hE : (Reactor.apply st
                  (pre ++ InterestAction.Modify fd f1 ::
                    (mid ++ InterestAction.Modify fd f2 :: post))).2 = Except.error () := by
                rw [Reactor.apply, h1, hstep1, hmidsplit1]
              exact absurd hE hok
          | ok b1 =>
              have hred1 : applyGo (setEpollFlags s0 fd f1) b0
                  (mid ++ InterestAction.Modify fd f2 :: post) =
                  applyGo (setEpollFlags s1 fd f1) b1
                    (InterestAction.Modify fd f2 :: post) := by
                rw [hmidsplit1]
              have hredR : applyGo s0 b0 (mid ++ InterestAction.Modify fd f2 :: post) =
                  applyGo s1 b1 (InterestAction.Modify fd f2 :: post) := by
                rw [hmidsplitR]
              cases hc1 : containsKey s1.epoll fd with
              | false =>
                  have hc1L : containsKey (setEpollFlags s1 fd f1).epoll fd = false := by
                    simpa [setEpollFlags, containsKey_setKey] using hc1
                  have hm2L := modify_interest_absent (setEpollFlags s1 fd f1) fd f2 hc1L
                  have hstep2L : applyGo (setEpollFlags s1 fd f1) b1
                      (InterestAction.Modify fd f2 :: post) =
                      (setEpollFlags s1 fd f1, Except.error ()) := by
                    rw [applyGo]
                    simp [applyStep, hm2L]
                  have hE : (Reactor.apply st
                      (pre ++ InterestAction.Modify fd f1 ::
                        (mid ++ InterestAction.Modify fd f2 :: post))).2 =
                      Except.error () := by
                    rw [Reactor.apply, h1, hstep1, hred1, hstep2L]
                  exact absurd hE hok
              | true =>
                  have hc1L : containsKey (setEpollFlags s1 fd f1).epoll fd = true := by
                    simpa [setEpollFlags, containsKey_setKey] using hc1
                  have hm2L := modify_interest_present (setEpollFlags s1 fd f1) fd f2 hc1L
                  have hm2R := modify_interest_present s1 fd f2 hc1
                  have hsetset : setEpollFlags (setEpollFlags s1 fd f1) fd f2 =
                      setEpollFlags s1 fd f2 := by
                    simp [setEpollFlags, setKey_setKey_same]
                  have hstep2L : applyGo (setEpollFlags s1 fd f1) b1
                      (InterestAction.Modify fd f2 :: post) =
                      applyGo (setEpollFlags s1 fd f2) b1 post := by
                    rw [applyGo]
                    simp [applyStep, hm2L, hsetset]
                  have hstep2R : applyGo s1 b1 (InterestAction.Modify fd f2 :: post) =
                      applyGo (setEpollFlags s1 fd f2) b1 post := by
                    rw [applyGo]
                    simp [applyStep, hm2R]
                  constructor
                  · rw [Reactor.apply, Reactor.apply, h1, h2, hstep1, hred1, hstep2L,
                        hredR, hstep2R]
                  · rw [Reactor.apply, h1, hstep1, hred1, hstep2L]
                    rw [applyGo_lookup_preserve post fd hpost (setEpollFlags s1 fd f2) b1]
                    show lookupKey (setKey s1.epoll fd f2) fd = some f2
                    exact lookupKey_setKey_self s1.epoll fd f2 hc1

/-- Witness for C8: on a reactor with fd 5 registered, the batch
`[Modify 5 read, PrintStats, Modify 5 write]` equals the batch without the
first `Modify`, and fd 5 ends with the write mask. -/
theorem C8_last_modify_wins_witness :
    Reactor.apply (Reactor.mk [((5 : Int), EPOLLIN)] [((5 : Int), 1)] [])
        [InterestAction.Modify 5 READ_FLAGS, InterestAction.PrintStats,
          InterestAction.Modify 5 WRITE_FLAGS] =
      Reactor.apply (Reactor.mk [((5 : Int), EPOLLIN)] [((5 : Int), 1)] [])
        [InterestAction.PrintStats, InterestAction.Modify 5 WRITE_FLAGS] ∧
    lookupKey (Reactor.apply (Reactor.mk [((5 : Int), EPOLLIN)] [((5 : Int), 1)] [])
        [InterestAction.Modify 5 READ_FLAGS, InterestAction.PrintStats,
          InterestAction.Modify 5 WRITE_FLAGS]).1.epoll 5 = some WRITE_FLAGS := by
  have hcomp : Reactor.apply (Reactor.mk [((5 : Int), EPOLLIN)] [((5 : Int), 1)] [])
      ([] ++ InterestAction.Modify 5 READ_FLAGS ::
        ([InterestAction.PrintStats] ++ InterestAction.Modify 5 WRITE_FLAGS :: [])) =
      (Reactor.mk [((5 : Int), WRITE_FLAGS)] [((5 : Int), 1)] [], Except.ok false) := rfl
  have h := C8_last_modify_wins (Reactor.mk [((5 : Int), EPOLLIN)] [((5 : Int), 1)] [])
    [] [InterestAction.PrintStats] [] 5 READ_FLAGS WRITE_FLAGS
    (by decide) (by decide)
    (fun hcon => by rw [hcomp] at hcon; exact Except.noConfusion hcon)
  exact h

/-- C9: `add_interest` and `remove_interest` are atomic on syscall failure:
when `epoll_ctl(ADD)` rejects (the fd is already registered) the error is
returned with the reactor unchanged (no receiver inserted), and when
`epoll_ctl(DEL)` rejects (the fd is not registered) the error is returned
with the reactor unchanged (registry untouched, fd not closed). -/
theorem C9_interest_ops_atomic_on_error (st : Reactor) (fd : Int) (flags receiver : Nat) :
    (containsKey st.epoll fd = true →
      st.add_interest fd flags receiver = (st, Except.error ())) ∧
    (containsKey st.epoll fd = false →
      st.remove_interest fd = (st, Except.error ())) := by
  constructor
  · intro h
    simp [Reactor.add_interest, epollCtlAdd, h]
  · intro h
    simp [Reactor.remove_interest, epollCtlDel, h]

/-- Witness for C9: adding fd 5 twice fails and leaves the reactor intact;
removing the unregistered fd 7 fails and closes nothing. -/
theorem C9_interest_ops_atomic_on_error_witness :
    Reactor.add_interest (Reactor.mk [((5 : Int), READ_FLAGS)] [((5 : Int), 1)] []) 5
        READ_FLAGS 2 =
      (Reactor.mk [((5 : Int), READ_FLAGS)] [((5 : Int), 1)] [], Except.error ()) ∧
    Reactor.remove_interest (Reactor.mk [((5 : Int), READ_FLAGS)] [((5 : Int), 1)] []) 7 =
      (Reactor.mk [((5 : Int), READ_FLAGS)] [((5 : Int), 1)] [], Except.error ()) :=
  ⟨(C9_interest_ops_atomic_on_error
      (Reactor.mk [((5 : Int), READ_FLAGS)] [((5 : Int), 1)] []) 5 READ_FLAGS 2).1 rfl,
    (C9_interest_ops_atomic_on_error
      (Reactor.mk [((5 : Int), READ_FLAGS)] [((5 : Int), 1)] []) 7 0 0).2 rfl⟩

/-- C10: in the dispatch `match`, read has priority: a readable event
always selects `on_read`; `on_write` is selected exactly when the event is
writable and not readable; and no event selects both callbacks. -/
theorem C10_read_priority_over_write (v : Nat) :
    (v &&& EPOLLIN = EPOLLIN → dispatchEvent v = DispatchChoice.callOnRead) ∧
    (dispatchEvent v = DispatchChoice.callOnWrite ↔
      (¬ v &&& EPOLLIN = EPOLLIN ∧ v &&& EPOLLOUT = EPOLLOUT)) ∧
    ¬ (dispatchEvent v = DispatchChoice.callOnRead ∧
        dispatchEvent v = DispatchChoice.callOnWrite) := by
  by_cases h1 : v &&& EPOLLIN = EPOLLIN
  · by_cases h2 : v &&& EPOLLOUT = EPOLLOUT <;> simp [dispatchEvent, h1, h2]
  · by_cases h2 : v &&& EPOLLOUT = EPOLLOUT <;> simp [dispatchEvent, h1, h2]

/-- Witness for C10: event mask 17 (`EPOLLIN | EPOLLHUP`) dispatches to
`on_read`; mask 4 (`EPOLLOUT` only) dispatches to `on_write`. -/
theorem C10_read_priority_over_write_witness :
    dispatchEvent 17 = DispatchChoice.callOnRead ∧
    dispatchEvent 4 = DispatchChoice.callOnWrite :=
  ⟨(C10_read_priority_over_write 17).1 (by decide),
    ((C10_read_priority_over_write 4).2.1).mpr (by decide)⟩

end EpollExample
